import Mathlib

/-!
Verification of the Student Record Store of `src/app.py`.

The store is a single SQLite table
`students (id INTEGER PRIMARY KEY AUTOINCREMENT, name, email, phone, course,
enrollment_date TEXT NOT NULL)` accessed by five functions:
`init_database`, `insert_student`, `view_all_students`, `get_student_by_id`,
`update_student`, `delete_student`.  Each opens a connection, runs one SQL
statement and closes the connection, so every operation is a pure function of
the table state.  We embed the table as a list of rows in storage (rowid)
order together with the AUTOINCREMENT sequence value (the largest id ever
assigned; SQLite's `sqlite_sequence` entry), and each Python function as a
Lean function on that state.  The wall clock read by `datetime.now()` is an
explicit parameter of `insert_student`.
-/

set_option autoImplicit false

namespace StudentApp

/-- Embedding of a `datetime.datetime` value as read by `datetime.now()`:
the six fields that the format string `"%Y-%m-%d %H:%M:%S"` renders. -/
structure DateTime where
  year : Nat
  month : Nat
  day : Nat
  hour : Nat
  minute : Nat
  second : Nat
deriving DecidableEq

/-- Zero-pad the decimal rendering of `n` to two characters, as `strftime`
does for `%m`, `%d`, `%H`, `%M`, `%S`. -/
def pad2 (n : Nat) : String :=
  if n < 10 then "0" ++ Nat.repr n else Nat.repr n

/-- Zero-pad the decimal rendering of `n` to four characters, as `strftime`
does for `%Y` (Python datetime years lie in 1..9999). -/
def pad4 (n : Nat) : String :=
  if n < 10 then "000" ++ Nat.repr n
  else if n < 100 then "00" ++ Nat.repr n
  else if n < 1000 then "0" ++ Nat.repr n
  else Nat.repr n

/-- Embedding of `t.strftime("%Y-%m-%d %H:%M:%S")` (src/app.py line 55). -/
def strftimeYmdHms (t : DateTime) : String :=
  pad4 t.year ++ "-" ++ pad2 t.month ++ "-" ++ pad2 t.day ++ " " ++
    pad2 t.hour ++ ":" ++ pad2 t.minute ++ ":" ++ pad2 t.second

/-- One row of the `students` table (src/app.py lines 26-33). -/
structure Student where
  id : Nat
  name : String
  email : String
  phone : String
  course : String
  enrollment_date : String
deriving DecidableEq

/-- State of the `students` table: the rows in storage (rowid) order plus the
AUTOINCREMENT sequence value, i.e. the largest id ever assigned (0 when no row
was ever inserted). -/
structure StudentsTable where
  rows : List Student
  seq : Nat
deriving DecidableEq

/-- The freshly created table: no rows, no id ever assigned. -/
def emptyTable : StudentsTable := ⟨[], 0⟩

/-- Embedding of `init_database` (src/app.py lines 16-37):
`CREATE TABLE IF NOT EXISTS students (...)`.  The argument is `none` when the
backing file has no `students` table yet and `some db` when it already holds
state `db`; the statement creates the empty table in the first case and is a
no-op in the second. -/
def init_database : Option StudentsTable → StudentsTable
  | none => emptyTable
  | some db => db

/-- Embedding of `insert_student` (src/app.py lines 43-63):
`INSERT INTO students (name, email, phone, course, enrollment_date) VALUES
(?, ?, ?, ?, ?)` with `enrollment_date = datetime.now().strftime("%Y-%m-%d
%H:%M:%S")`.  The AUTOINCREMENT primary key assigns id `seq + 1` and bumps the
sequence; the new row is appended in storage order. -/
def insert_student (now : DateTime) (name email phone course : String)
    (db : StudentsTable) : StudentsTable :=
  { rows := db.rows ++ [⟨db.seq + 1, name, email, phone, course, strftimeYmdHms now⟩]
    seq := db.seq + 1 }

/-- Embedding of `view_all_students` (src/app.py lines 65-76):
`SELECT id, name, email, phone, course, enrollment_date FROM students` with no
ORDER BY, so the rows come back in storage order. -/
def view_all_students (db : StudentsTable) : List Student :=
  db.rows

/-- Embedding of `get_student_by_id` (src/app.py lines 78-93):
`SELECT * FROM students WHERE id = ?` followed by `fetchone()`, which yields
the first matching row in storage order, or `None`. -/
def get_student_by_id (student_id : Nat) (db : StudentsTable) : Option Student :=
  db.rows.find? (fun r => r.id == student_id)

/-- Effect of the UPDATE statement of `update_student` on one row: a row whose
id matches the WHERE clause has its four mutable columns overwritten; id and
enrollment_date are not in the SET list and survive; other rows are untouched. -/
def updOne (student_id : Nat) (name email phone course : String) (r : Student) : Student :=
  if r.id == student_id then
    { r with name := name, email := email, phone := phone, course := course }
  else r

/-- Embedding of `update_student` (src/app.py lines 95-116):
`UPDATE students SET name = ?, email = ?, phone = ?, course = ? WHERE id = ?`,
applied to every stored row. -/
def update_student (student_id : Nat) (name email phone course : String)
    (db : StudentsTable) : StudentsTable :=
  { db with rows := db.rows.map (updOne student_id name email phone course) }

/-- Embedding of `delete_student` (src/app.py lines 118-129):
`DELETE FROM students WHERE id = ?`.  Rows whose id matches are removed; the
AUTOINCREMENT sequence is untouched. -/
def delete_student (student_id : Nat) (db : StudentsTable) : StudentsTable :=
  { db with rows := db.rows.filter (fun r => r.id != student_id) }

/-- Well-formedness that SQLite's `INTEGER PRIMARY KEY AUTOINCREMENT` keeps
for the `students` table: ids are pairwise distinct and never exceed the
sequence value. -/
def Wf (db : StudentsTable) : Prop :=
  (db.rows.map Student.id).Nodup ∧ ∀ r ∈ db.rows, r.id ≤ db.seq

instance (db : StudentsTable) : Decidable (Wf db) := by
  unfold Wf; infer_instance

/-- The ids of the stored rows, in storage order, are strictly ascending. -/
def SortedIds (db : StudentsTable) : Prop :=
  (db.rows.map Student.id).Sorted (· < ·)

instance (db : StudentsTable) : Decidable (SortedIds db) := by
  unfold SortedIds List.Sorted; infer_instance

/-! Concrete data used to instantiate the theorems that carry hypotheses. -/

/-- A sample creation instant. -/
def sampleDate : DateTime := ⟨2024, 1, 2, 3, 4, 5⟩

/-- A sample stored row, as `insert_student` would create it. -/
def aliceRow : Student :=
  ⟨1, "Alice", "a@x.com", "555-0001", "Data Science", "2024-01-02 03:04:05"⟩

/-- A sample table state holding exactly `aliceRow`. -/
def sampleTable : StudentsTable := ⟨[aliceRow], 1⟩

/-! Helper lemmas about the operations. -/

theorem updOne_id (sid : Nat) (n e p c : String) (r : Student) :
    (updOne sid n e p c r).id = r.id := by
  unfold updOne; split <;> rfl

theorem updOne_enrollment_date (sid : Nat) (n e p c : String) (r : Student) :
    (updOne sid n e p c r).enrollment_date = r.enrollment_date := by
  unfold updOne; split <;> rfl

theorem map_id_update (sid : Nat) (n e p c : String) (db : StudentsTable) :
    (update_student sid n e p c db).rows.map Student.id = db.rows.map Student.id := by
  unfold update_student
  rw [List.map_map]
  exact List.map_congr_left (fun r _ => updOne_id sid n e p c r)

theorem map_id_enr_update (sid : Nat) (n e p c : String) (db : StudentsTable) :
    (update_student sid n e p c db).rows.map (fun r => (r.id, r.enrollment_date))
      = db.rows.map (fun r => (r.id, r.enrollment_date)) := by
  unfold update_student
  rw [List.map_map]
  exact List.map_congr_left (fun r _ => by
    simp [Function.comp, updOne_id, updOne_enrollment_date])

theorem find?_map_updOne (sid : Nat) (n e p c : String) (l : List Student) :
    (l.map (updOne sid n e p c)).find? (fun r => r.id == sid)
      = (l.find? (fun r => r.id == sid)).map (updOne sid n e p c) := by
  induction l with
  | nil => rfl
  | cons a l ih =>
    by_cases h : a.id = sid
    · simp [List.find?_cons, updOne_id, h]
    · simp [List.find?_cons, updOne_id, h, ih]

theorem get_update (sid : Nat) (n e p c : String) (db : StudentsTable) :
    get_student_by_id sid (update_student sid n e p c db)
      = (get_student_by_id sid db).map (updOne sid n e p c) := by
  unfold get_student_by_id update_student
  exact find?_map_updOne sid n e p c db.rows

theorem get_update_hit (sid : Nat) (n e p c : String) (db : StudentsTable)
    (r : Student) (h : get_student_by_id sid db = some r) :
    get_student_by_id sid (update_student sid n e p c db)
      = some ⟨r.id, n, e, p, c, r.enrollment_date⟩ := by
  unfold get_student_by_id at h
  have hid : (r.id == sid) = true := by
    have h2 := List.find?_some h
    simpa using h2
  rw [get_update]
  unfold get_student_by_id
  rw [h]
  simp [updOne, hid]

theorem length_filter_ne_of_mem (sid : Nat) (l : List Student)
    (hnd : (l.map Student.id).Nodup) (hmem : ∃ r ∈ l, r.id = sid) :
    (l.filter (fun r => r.id != sid)).length + 1 = l.length := by
  induction l with
  | nil => simp at hmem
  | cons a l ih =>
    simp only [List.map_cons, List.nodup_cons] at hnd
    by_cases h : a.id = sid
    · have hrest : ∀ r ∈ l, r.id ≠ sid := by
        intro r hr hrs
        exact hnd.1 (h ▸ hrs ▸ List.mem_map_of_mem Student.id hr)
      have : l.filter (fun r => r.id != sid) = l :=
        List.filter_eq_self.mpr (fun r hr => by simpa using hrest r hr)
      simp [List.filter_cons, h, this]
    · obtain ⟨r, hr, hrs⟩ := hmem
      rcases List.mem_cons.mp hr with rfl | hr'
      · exact absurd hrs h
      · have := ih hnd.2 ⟨r, hr', hrs⟩
        simp [List.filter_cons, h]
        omega

theorem filter_ne_map_updOne (sid : Nat) (n e p c : String) (l : List Student) :
    (l.map (updOne sid n e p c)).filter (fun r => r.id != sid)
      = l.filter (fun r => r.id != sid) := by
  induction l with
  | nil => rfl
  | cons a l ih =>
    by_cases h : a.id = sid
    · simp [List.filter_cons, updOne, h, ih]
    · simp [List.filter_cons, updOne, h, ih]

theorem seq_not_mem_ids (db : StudentsTable) (hwf : Wf db) :
    db.seq + 1 ∉ db.rows.map Student.id := by
  intro hmem
  obtain ⟨r, hr, hid⟩ := List.mem_map.mp hmem
  have := hwf.2 r hr
  omega

/-! Claim theorems. -/

/-- C7: `init_database` is idempotent: on a state where the table already
exists it is a no-op that leaves every stored record unchanged, on a state
where the table is absent it creates the (empty) table, and running it twice
equals running it once. -/
theorem init_database_contract (db : StudentsTable) (d : Option StudentsTable) :
    init_database (some db) = db
    ∧ init_database none = emptyTable
    ∧ init_database (some (init_database d)) = init_database d :=
  ⟨rfl, rfl, rfl⟩

/-- C2: `insert_student` sets `enrollment_date` exactly once, to the creation
instant formatted as `YYYY-MM-DD HH:MM:SS`, while leaving every pre-existing
row untouched; and `update_student`, for any id and any new field values,
changes no record's id or `enrollment_date`. -/
theorem enrollment_date_write_once (t : DateTime) (n e p c : String)
    (sid : Nat) (n2 e2 p2 c2 : String) (db : StudentsTable) :
    (insert_student t n e p c db).rows
      = db.rows ++ [⟨db.seq + 1, n, e, p, c, strftimeYmdHms t⟩]
    ∧ (update_student sid n2 e2 p2 c2 db).rows.map (fun r => (r.id, r.enrollment_date))
      = db.rows.map (fun r => (r.id, r.enrollment_date)) :=
  ⟨rfl, map_id_enr_update sid n2 e2 p2 c2 db⟩

/-- C3: for an id present in no stored row, `get_student_by_id` returns
`none`, and `update_student` and `delete_student` leave the table (count and
contents) exactly unchanged; none of the three fails. -/
theorem missing_id_operations_noop (sid : Nat) (n e p c : String)
    (db : StudentsTable) (h : ∀ r ∈ db.rows, r.id ≠ sid) :
    get_student_by_id sid db = none
    ∧ update_student sid n e p c db = db
    ∧ delete_student sid db = db := by
  refine ⟨?_, ?_, ?_⟩
  · unfold get_student_by_id
    rw [List.find?_eq_none]
    intro r hr
    simpa using h r hr
  · unfold update_student
    have hmap : db.rows.map (updOne sid n e p c) = db.rows := by
      have h1 : db.rows.map (updOne sid n e p c) = db.rows.map id :=
        List.map_congr_left (fun r hr => by simp [updOne, h r hr])
      simpa using h1
    cases db with
    | mk rows seq => simp_all
  · unfold delete_student
    have hfil : db.rows.filter (fun r => r.id != sid) = db.rows :=
      List.filter_eq_self.mpr (fun r hr => by simpa using h r hr)
    cases db with
    | mk rows seq => simp_all

/-- Witness for C3: on the one-row sample table, id 2 is absent and all three
operations behave as stated. -/
theorem missing_id_operations_noop_witness :
    (∀ r ∈ sampleTable.rows, r.id ≠ 2)
    ∧ (get_student_by_id 2 sampleTable = none
      ∧ update_student 2 "Bob" "b@x.com" "555-0002" "Web Development" sampleTable = sampleTable
      ∧ delete_student 2 sampleTable = sampleTable) :=
  ⟨by decide,
    missing_id_operations_noop 2 "Bob" "b@x.com" "555-0002" "Web Development"
      sampleTable (by decide)⟩

/-- C4: updating a record that is present in the store and re-reading it by
id yields exactly the new name, email, phone and course, with id and
enrollment_date unchanged. -/
theorem update_then_get_reflects_new_values (sid : Nat) (n e p c : String)
    (db : StudentsTable) (r : Student)
    (h : get_student_by_id sid db = some r) :
    get_student_by_id sid (update_student sid n e p c db)
      = some ⟨r.id, n, e, p, c, r.enrollment_date⟩ :=
  get_update_hit sid n e p c db r h

/-- Witness for C4: updating the sample row and re-reading it returns exactly
the new field values with id and enrollment_date unchanged. -/
theorem update_then_get_reflects_new_values_witness :
    get_student_by_id 1 sampleTable = some aliceRow
    ∧ get_student_by_id 1
        (update_student 1 "Bob" "b@x.com" "555-0002" "Web Development" sampleTable)
      = some ⟨aliceRow.id, "Bob", "b@x.com", "555-0002", "Web Development",
          aliceRow.enrollment_date⟩ :=
  ⟨by decide,
    update_then_get_reflects_new_values 1 "Bob" "b@x.com" "555-0002" "Web Development"
      sampleTable aliceRow (by decide)⟩

/-- C9: the store performs no non-emptiness validation: for arbitrary field
strings, the empty string included, `insert_student` appends a row holding
exactly those values, and `update_student` on a present id overwrites the
four mutable fields with exactly those values; neither fails. -/
theorem store_has_no_validation (t : DateTime) (n e p c : String)
    (sid : Nat) (db : StudentsTable) (r : Student)
    (h : get_student_by_id sid db = some r) :
    (insert_student t n e p c db).rows
      = db.rows ++ [⟨db.seq + 1, n, e, p, c, strftimeYmdHms t⟩]
    ∧ get_student_by_id sid (update_student sid n e p c db)
      = some ⟨r.id, n, e, p, c, r.enrollment_date⟩ :=
  ⟨rfl, get_update_hit sid n e p c db r h⟩

/-- Witness for C9: creating and updating with all four fields empty works on
the sample table and stores the empty strings verbatim. -/
theorem store_has_no_validation_witness :
    get_student_by_id 1 sampleTable = some aliceRow
    ∧ ((insert_student sampleDate "" "" "" "" sampleTable).rows
        = sampleTable.rows
          ++ [⟨sampleTable.seq + 1, "", "", "", "", strftimeYmdHms sampleDate⟩]
      ∧ get_student_by_id 1 (update_student 1 "" "" "" "" sampleTable)
        = some ⟨aliceRow.id, "", "", "", "", aliceRow.enrollment_date⟩) :=
  ⟨by decide,
    store_has_no_validation sampleDate "" "" "" "" 1 sampleTable aliceRow (by decide)⟩

/-- C1: on a well-formed store, creating a record and then listing all
records shows exactly the old records followed by one new record carrying the
four input fields, whose id did not occur in the store before and is distinct
from every other id in the listing. -/
theorem create_then_list_appends_fresh_record (t : DateTime) (n e p c : String)
    (db : StudentsTable) (hwf : Wf db) :
    view_all_students (insert_student t n e p c db)
      = view_all_students db ++ [⟨db.seq + 1, n, e, p, c, strftimeYmdHms t⟩]
    ∧ db.seq + 1 ∉ (view_all_students db).map Student.id
    ∧ ((view_all_students (insert_student t n e p c db)).map Student.id).Nodup := by
  have hfresh := seq_not_mem_ids db hwf
  refine ⟨rfl, hfresh, ?_⟩
  unfold view_all_students insert_student
  rw [List.map_append, List.nodup_append]
  refine ⟨hwf.1, by simp, ?_⟩
  intro a ha hb
  simp at hb
  subst hb
  exact hfresh ha

/-- Witness for C1: creating a second record on the one-row sample table. -/
theorem create_then_list_appends_fresh_record_witness :
    Wf sampleTable
    ∧ (view_all_students
          (insert_student sampleDate "Bob" "b@x.com" "555-0002" "Web Development" sampleTable)
        = view_all_students sampleTable
          ++ [⟨sampleTable.seq + 1, "Bob", "b@x.com", "555-0002", "Web Development",
                strftimeYmdHms sampleDate⟩]
      ∧ sampleTable.seq + 1 ∉ (view_all_students sampleTable).map Student.id
      ∧ ((view_all_students
            (insert_student sampleDate "Bob" "b@x.com" "555-0002" "Web Development"
              sampleTable)).map Student.id).Nodup) :=
  ⟨by decide,
    create_then_list_appends_fresh_record sampleDate "Bob" "b@x.com" "555-0002"
      "Web Development" sampleTable (by decide)⟩

/-- C5: on a well-formed store, deleting an id that is present removes
exactly one record, and a subsequent `get_student_by_id` with that id returns
`none`. -/
theorem delete_present_decrements_count (sid : Nat) (db : StudentsTable)
    (hwf : Wf db) (hmem : ∃ r ∈ db.rows, r.id = sid) :
    (delete_student sid db).rows.length + 1 = db.rows.length
    ∧ get_student_by_id sid (delete_student sid db) = none := by
  constructor
  · exact length_filter_ne_of_mem sid db.rows hwf.1 hmem
  · unfold get_student_by_id delete_student
    rw [List.find?_eq_none]
    intro r hr
    have hf := List.mem_filter.mp hr
    simpa using hf.2

/-- Witness for C5: deleting id 1 from the one-row sample table leaves zero
rows and id 1 unreadable. -/
theorem delete_present_decrements_count_witness :
    Wf sampleTable
    ∧ (∃ r ∈ sampleTable.rows, r.id = 1)
    ∧ ((delete_student 1 sampleTable).rows.length + 1 = sampleTable.rows.length
      ∧ get_student_by_id 1 (delete_student 1 sampleTable) = none) :=
  ⟨by decide, by decide, delete_present_decrements_count 1 sampleTable (by decide) (by decide)⟩

/-- C6: on a well-formed store, ids are assigned by the store at creation
(the new row gets id `seq + 1` and the sequence advances, so successive
creates assign strictly increasing ids), the assigned id never occurred
before and the table's ids stay pairwise distinct, updates never change any
id, and deletion keeps the sequence value, so every id ever present stays
below the id any later create assigns — deleted ids are never reused. -/
theorem id_assignment_invariants (t : DateTime) (n e p c : String)
    (sid : Nat) (n2 e2 p2 c2 : String) (db : StudentsTable) (hwf : Wf db) :
    (insert_student t n e p c db).rows.map Student.id
      = db.rows.map Student.id ++ [db.seq + 1]
    ∧ (insert_student t n e p c db).seq = db.seq + 1
    ∧ db.seq + 1 ∉ db.rows.map Student.id
    ∧ Wf (insert_student t n e p c db)
    ∧ (update_student sid n2 e2 p2 c2 db).rows.map Student.id
        = db.rows.map Student.id
    ∧ Wf (update_student sid n2 e2 p2 c2 db)
    ∧ (delete_student sid db).seq = db.seq
    ∧ Wf (delete_student sid db)
    ∧ ∀ r ∈ db.rows,
        r.id < (insert_student t n2 e2 p2 c2 (delete_student sid db)).seq := by
  have hfresh := seq_not_mem_ids db hwf
  refine ⟨by simp [insert_student], rfl, hfresh, ⟨?_, ?_⟩, map_id_update sid n2 e2 p2 c2 db,
    ⟨?_, ?_⟩, rfl, ⟨?_, ?_⟩, ?_⟩
  · unfold insert_student
    rw [List.map_append, List.nodup_append]
    refine ⟨hwf.1, by simp, ?_⟩
    intro a ha hb
    simp at hb
    subst hb
    exact hfresh ha
  · intro r hr
    unfold insert_student at hr
    show r.id ≤ db.seq + 1
    rcases List.mem_append.mp hr with h1 | h1
    · have := hwf.2 r h1
      omega
    · simp at h1
      subst h1
      exact Nat.le_refl _
  · rw [map_id_update]
    exact hwf.1
  · intro r hr
    unfold update_student at hr
    obtain ⟨r0, hr0, hrq⟩ := List.mem_map.mp hr
    have hb := hwf.2 r0 hr0
    have hidq : r.id = r0.id := by rw [← hrq, updOne_id]
    simpa [hidq] using hb
  · exact List.Nodup.sublist ((List.filter_sublist _).map Student.id) hwf.1
  · intro r hr
    exact hwf.2 r (List.mem_filter.mp hr).1
  · intro r hr
    have := hwf.2 r hr
    show r.id < db.seq + 1
    omega

/-- Witness for C6: the invariants instantiated on the one-row sample table. -/
theorem id_assignment_invariants_witness :
    Wf sampleTable
    ∧ ((insert_student sampleDate "Bob" "b@x.com" "555-0002" "Web Development"
          sampleTable).rows.map Student.id
        = sampleTable.rows.map Student.id ++ [sampleTable.seq + 1]
      ∧ (insert_student sampleDate "Bob" "b@x.com" "555-0002" "Web Development"
          sampleTable).seq = sampleTable.seq + 1
      ∧ sampleTable.seq + 1 ∉ sampleTable.rows.map Student.id
      ∧ Wf (insert_student sampleDate "Bob" "b@x.com" "555-0002" "Web Development"
          sampleTable)
      ∧ (update_student 1 "Ann" "ann@x.com" "555-0003" "Database Design"
          sampleTable).rows.map Student.id = sampleTable.rows.map Student.id
      ∧ Wf (update_student 1 "Ann" "ann@x.com" "555-0003" "Database Design" sampleTable)
      ∧ (delete_student 1 sampleTable).seq = sampleTable.seq
      ∧ Wf (delete_student 1 sampleTable)
      ∧ ∀ r ∈ sampleTable.rows,
          r.id < (insert_student sampleDate "Ann" "ann@x.com" "555-0003" "Database Design"
            (delete_student 1 sampleTable)).seq) :=
  ⟨by decide,
    id_assignment_invariants sampleDate "Bob" "b@x.com" "555-0002" "Web Development"
      1 "Ann" "ann@x.com" "555-0003" "Database Design" sampleTable (by decide)⟩

/-- C8: `view_all_students` returns every stored record, in storage order
(the listing is the row list itself), returns the empty sequence on the empty
store, and storage order is ascending id in practice: strictly ascending ids
are preserved by every operation on a well-formed store. -/
theorem view_all_complete_ordered (t : DateTime) (n e p c : String)
    (sid : Nat) (n2 e2 p2 c2 : String) (db : StudentsTable)
    (hwf : Wf db) (hs : SortedIds db) :
    view_all_students db = db.rows
    ∧ (∀ r, r ∈ view_all_students db ↔ r ∈ db.rows)
    ∧ view_all_students emptyTable = []
    ∧ SortedIds (insert_student t n e p c db)
    ∧ SortedIds (update_student sid n2 e2 p2 c2 db)
    ∧ SortedIds (delete_student sid db) := by
  refine ⟨rfl, fun r => Iff.rfl, rfl, ?_, ?_, ?_⟩
  · unfold SortedIds insert_student List.Sorted
    rw [List.map_append, List.pairwise_append]
    refine ⟨hs, by simp, ?_⟩
    intro a ha b hb
    simp at hb
    subst hb
    obtain ⟨r, hr, hid⟩ := List.mem_map.mp ha
    have := hwf.2 r hr
    omega
  · unfold SortedIds
    rw [map_id_update]
    exact hs
  · exact List.Pairwise.sublist ((List.filter_sublist _).map Student.id) hs

/-- Witness for C8: the listing and order properties on the sample table. -/
theorem view_all_complete_ordered_witness :
    Wf sampleTable
    ∧ SortedIds sampleTable
    ∧ (view_all_students sampleTable = sampleTable.rows
      ∧ (∀ r, r ∈ view_all_students sampleTable ↔ r ∈ sampleTable.rows)
      ∧ view_all_students emptyTable = []
      ∧ SortedIds (insert_student sampleDate "Bob" "b@x.com" "555-0002" "Web Development"
          sampleTable)
      ∧ SortedIds (update_student 1 "Ann" "ann@x.com" "555-0003" "Database Design"
          sampleTable)
      ∧ SortedIds (delete_student 1 sampleTable)) :=
  ⟨by decide, by decide,
    view_all_complete_ordered sampleDate "Bob" "b@x.com" "555-0002" "Web Development"
      1 "Ann" "ann@x.com" "555-0003" "Database Design" sampleTable (by decide) (by decide)⟩

/-- C10: on a well-formed store, `update_student` leaves every record whose
id differs from the target entirely unchanged (the sub-list of other-id rows
is equal, order included, and the row count is unchanged), and
`delete_student` keeps every record with a different id, removes only rows
carrying the target id, and removes at most one record. -/
theorem update_delete_frame (sid : Nat) (n e p c : String) (db : StudentsTable)
    (hwf : Wf db) :
    (update_student sid n e p c db).rows.filter (fun r => r.id != sid)
      = db.rows.filter (fun r => r.id != sid)
    ∧ (update_student sid n e p c db).rows.length = db.rows.length
    ∧ (∀ r ∈ db.rows, r.id ≠ sid → r ∈ (delete_student sid db).rows)
    ∧ (∀ r ∈ db.rows, r ∉ (delete_student sid db).rows → r.id = sid)
    ∧ db.rows.length ≤ (delete_student sid db).rows.length + 1 := by
  refine ⟨filter_ne_map_updOne sid n e p c db.rows, by simp [update_student], ?_, ?_, ?_⟩
  · intro r hr hne
    unfold delete_student
    exact List.mem_filter.mpr ⟨hr, by simpa using hne⟩
  · intro r hr hnot
    by_contra hne
    exact hnot (List.mem_filter.mpr ⟨hr, by simpa using hne⟩)
  · show db.rows.length ≤ (db.rows.filter (fun r => r.id != sid)).length + 1
    by_cases hex : ∃ r ∈ db.rows, r.id = sid
    · have := length_filter_ne_of_mem sid db.rows hwf.1 hex
      omega
    · push_neg at hex
      have hfil : db.rows.filter (fun r => r.id != sid) = db.rows :=
        List.filter_eq_self.mpr (fun r hr => by simpa using hex r hr)
      rw [hfil]
      omega

/-- Witness for C10: the frame properties of update and delete on the sample
table, targeting the present id 1. -/
theorem update_delete_frame_witness :
    Wf sampleTable
    ∧ ((update_student 1 "Bob" "b@x.com" "555-0002" "Web Development"
          sampleTable).rows.filter (fun r => r.id != 1)
        = sampleTable.rows.filter (fun r => r.id != 1)
      ∧ (update_student 1 "Bob" "b@x.com" "555-0002" "Web Development"
          sampleTable).rows.length = sampleTable.rows.length
      ∧ (∀ r ∈ sampleTable.rows, r.id ≠ 1 → r ∈ (delete_student 1 sampleTable).rows)
      ∧ (∀ r ∈ sampleTable.rows, r ∉ (delete_student 1 sampleTable).rows → r.id = 1)
      ∧ sampleTable.rows.length ≤ (delete_student 1 sampleTable).rows.length + 1) :=
  ⟨by decide,
    update_delete_frame 1 "Bob" "b@x.com" "555-0002" "Web Development" sampleTable
      (by decide)⟩

end StudentApp
